import Mathlib

/-!
Shallow embedding of the results-management core of the vector-sets browser
(the `VectorResults` component and the `vinfo_multi` command builder), together
with theorems checking the specification's statements about it.

Modelling conventions:
* JavaScript strings are Lean `String`s; `toLowerCase`, `trim` and `includes`
  are modelled over the underlying character lists (ASCII-faithful).
* `localeCompare` is modelled as lexicographic comparison of the character
  lists (the default-locale lexical order).
* `JSON.parse` is an external builtin; it is modelled as an arbitrary
  fallible function `parseJson : String → Option ParsedAttributes`.
* The persisted visibility store (`useVectorResultsSettings`) is external to
  the component; its `getColumnVisibility` capability is modelled as an
  arbitrary function `getVis : String → Bool → Bool` (name, default).
* React state is explicit: each `useEffect` / handler becomes a function from
  the relevant state to the new state.  `Array.prototype.sort` (stable) is
  modelled by `List.mergeSort`.
* JS object maps (`Record<string, T>`) are modelled as `String → Option T`,
  updated with `Function.update`; a stored `null` is an inner `Option`.
-/

namespace VectorSetsBrowser

/-! ### JavaScript string primitives -/

/-- JS `String.prototype.toLowerCase`, modelled characterwise. -/
def jsToLower (s : String) : String := String.mk (s.data.map Char.toLower)

/-- JS `String.prototype.trim`: drop whitespace from both ends. -/
def jsTrim (s : String) : String :=
  String.mk (((s.data.dropWhile Char.isWhitespace).reverse.dropWhile
    Char.isWhitespace).reverse)

/-- Is `needle` a prefix of `hay` (character lists)? -/
def isPrefixOfB : List Char → List Char → Bool
  | [], _ => true
  | _ :: _, [] => false
  | a :: as, b :: bs => a == b && isPrefixOfB as bs

/-- Does `hay` contain `needle` as a contiguous run (character lists)? -/
def containsRun (needle : List Char) (hay : List Char) : Bool :=
  match hay with
  | [] => isPrefixOfB needle []
  | _ :: rest => isPrefixOfB needle hay || containsRun needle rest

/-- JS `hay.includes(needle)`. -/
def jsIncludes (hay needle : String) : Bool := containsRun needle.data hay.data

/-- JS truthiness of an optional string: `!x` holds for `undefined` and `""`. -/
def jsStrFalsy : Option String → Bool
  | Option.none => true
  | some s => s = ""

/-- Model of `a.localeCompare(b)`: lexicographic comparison of the character
lists, returning a negative, zero or positive number. -/
def localeCompareModel (a b : String) : Int :=
  if a.data < b.data then -1 else if b.data < a.data then 1 else 0

/-! ### Sort state (`SortColumn`, `SortDirection`, `handleSort`) -/

/-- The `SortColumn` union type of the component. -/
inductive SortColumn where
  | element
  | score
  | none
deriving DecidableEq, Repr

/-- The `SortDirection` union type of the component. -/
inductive SortDirection where
  | asc
  | desc
deriving DecidableEq, Repr

/-- The pair of `sortColumn` / `sortDirection` state variables. -/
structure SortState where
  column : SortColumn
  direction : SortDirection
deriving DecidableEq, Repr

/-- The `handleSort` click handler: cycle asc → desc → none on the current
column, otherwise select the clicked column ascending. -/
def handleSort (column : SortColumn) (s : SortState) : SortState :=
  if s.column = column then
    if s.direction = SortDirection.asc then
      { s with direction := SortDirection.desc }
    else if s.direction = SortDirection.desc then
      { s with column := SortColumn.none }
    else s
  else
    { column := column, direction := SortDirection.asc }

/-! ### Result view pipeline (`filteredAndSortedResults`) -/

/-- A `VectorTuple` row as used by the component: element id and score.
Scores are modelled as integers (the pipeline only compares them). -/
def Row : Type := String × Int

instance : DecidableEq Row := by unfold Row; infer_instance

/-- The free-text predicate of the filter step:
`row[0].toLowerCase().includes(filterText.toLowerCase())`. -/
def elementMatchesFilter (filterText : String) (row : Row) : Bool :=
  jsIncludes (jsToLower row.1) (jsToLower filterText)

/-- Step 1 of the pipeline: `if (filterText.trim()) results.filter(...)`.
Note the truthiness check uses the trimmed text but the match uses the
untrimmed text, exactly as in the source. -/
def textFilterStep (filterText : String) (results : List Row) : List Row :=
  if jsTrim filterText ≠ "" then
    results.filter (elementMatchesFilter filterText)
  else results

/-- The JS sort comparator: `localeCompare` for elements, subtraction for
scores, negated for descending. -/
def sortComparator (col : SortColumn) (dir : SortDirection) (a b : Row) : Int :=
  match col with
  | SortColumn.element =>
    let c := localeCompareModel a.1 b.1
    if dir = SortDirection.asc then c else -c
  | SortColumn.score =>
    let c := a.2 - b.2
    if dir = SortDirection.asc then c else -c
  | SortColumn.none => 0

/-- `a` may come no later than `b` under the comparator (the order enforced by
a stable JS sort). -/
def sortLe (col : SortColumn) (dir : SortDirection) (a b : Row) : Bool :=
  sortComparator col dir a b ≤ 0

/-- The `filteredAndSortedResults` memo: text filter, then (if a sort column
is active) a stable sort by the comparator. -/
def filteredAndSortedResults (results : List Row) (filterText : String)
    (sortColumn : SortColumn) (sortDirection : SortDirection) : List Row :=
  let processed := textFilterStep filterText results
  if sortColumn = SortColumn.none then processed
  else processed.mergeSort (sortLe sortColumn sortDirection)

/-! ### Attribute values, caches and the batched attribute fetch -/

/-- A parsed attribute value (`AttributeValue = string | number | boolean |
any[]`, plus JSON `null` which the TS type elides but `JSON.parse` can
produce). -/
inductive AttributeValue where
  | vStr (s : String)
  | vNum (n : Int)
  | vBool (b : Bool)
  | vArr (l : List AttributeValue)
  | vNull

/-- `ParsedAttributes = Record<string, AttributeValue>`, modelled as an
association list of fields in object-key order. -/
def ParsedAttributes : Type := List (String × AttributeValue)

/-- The `AttributeCache` map: element id to raw payload; a stored JS `null`
is the inner `Option.none`, an absent key is the outer `Option.none`. -/
def RawCache : Type := String → Option (Option String)

/-- The `parsedAttributeCache` map: element id to parsed attributes. -/
def ParsedCache : Type := String → Option ParsedAttributes

/-- JS `Set.prototype.add`: append if not already present (insertion order). -/
def insertSet (l : List String) (x : String) : List String :=
  if x ∈ l then l else l ++ [x]

/-- JS `Array.from(new Set(l))`: de-duplicate keeping first occurrences. -/
def dedupFirst (l : List String) : List String := l.foldl insertSet []

/-- One iteration of the `elements.forEach` loop in
`fetchAndProcessAttributes`: always store the raw payload; if it is truthy,
try to parse it, and on success store the parsed attributes and add every
field name to the accumulated column-name set.  A parse failure leaves the
parsed cache and column set untouched and processing continues. -/
def batchStep (parseJson : String → Option ParsedAttributes)
    (acc : RawCache × ParsedCache × List String)
    (p : String × Option String) : RawCache × ParsedCache × List String :=
  let raw' := Function.update acc.1 p.1 (some p.2)
  match p.2 with
  | some s =>
    if s ≠ "" then
      match parseJson s with
      | some parsed =>
        (raw', Function.update acc.2.1 p.1 (some parsed),
          (parsed.map Prod.fst).foldl insertSet acc.2.2)
      | Option.none => (raw', acc.2.1, acc.2.2)
    else (raw', acc.2.1, acc.2.2)
  | Option.none => (raw', acc.2.1, acc.2.2)

/-- The whole `elements.forEach` loop of `fetchAndProcessAttributes`: the raw
cache starts as a copy of the previous cache (`{ ...attributeCache }`), the
parsed cache and the column-name set start empty. -/
def processBatch (parseJson : String → Option ParsedAttributes)
    (prevRaw : RawCache) (pairs : List (String × Option String)) :
    RawCache × ParsedCache × List String :=
  pairs.foldl (batchStep parseJson) (prevRaw, fun _ => Option.none, [])

/-- The parsed-cache outcome the loop body produces for one raw payload:
present exactly when the payload is truthy and parses. -/
def expectedParse (parseJson : String → Option ParsedAttributes) :
    Option String → Option ParsedAttributes
  | some s => if s ≠ "" then parseJson s else Option.none
  | Option.none => Option.none

/-- A concrete model of `JSON.parse` used to evaluate the embedding on
concrete inputs: two well-formed payloads and everything else malformed. -/
def pjSample : String → Option ParsedAttributes :=
  fun s =>
    if s = "payloadA" then some [("a", AttributeValue.vStr "x")]
    else if s = "payloadB" then some [("b", AttributeValue.vStr "y")]
    else Option.none

/-- A concrete previous raw cache holding one entry, for evaluating the
frame property on a concrete input. -/
def prevRawSample : RawCache :=
  fun e => if e = "old" then some (some "oldraw") else Option.none

/-! ### Column configuration and its three mutation sites -/

/-- The column origin: the source's `"system" | "attribute"` strings
(`attr` stands for the string `"attribute"`, which is a Lean keyword). -/
inductive ColType where
  | system
  | attr
deriving DecidableEq, Repr

/-- `ColumnConfig` from `useVectorResultsSettings`: only the three fields the
component reads are modelled. -/
structure ColumnConfig where
  name : String
  visible : Bool
  type : ColType
deriving DecidableEq, Repr

/-- The `setAvailableColumns` update at the end of a successful batch fetch:
keep the system columns of the previous list and append one attribute column
per field name observed in this batch (visibility from the persisted
capability, default `true`).  Attribute columns from earlier batches are not
carried over. -/
def updateColumnsAfterBatch (getVis : String → Bool → Bool)
    (prev : List ColumnConfig) (attrNames : List String) : List ColumnConfig :=
  (prev.filter (fun col => decide (col.type = ColType.system)))
    ++ attrNames.map (fun n =>
        { name := n, visible := getVis n true, type := ColType.attr })

/-- The `handleToggleColumn` update: set `visible` on the named column. -/
def handleToggleColumn (columnName : String) (visible : Bool)
    (prev : List ColumnConfig) : List ColumnConfig :=
  prev.map (fun c =>
    if c.name = columnName then { c with visible := visible } else c)

/-- The `setAvailableColumns` update of `handleAttributesDialogClose`: append
a new always-visible attribute column for each field of the re-parsed payload
whose name is not already present. -/
def dialogCloseAddColumns (newKeys : List String)
    (prev : List ColumnConfig) : List ColumnConfig :=
  prev ++ ((dedupFirst newKeys).filter
      (fun n => decide (n ∉ prev.map ColumnConfig.name))).map
      (fun n => { name := n, visible := true, type := ColType.attr })

/-! ### Filter engine: referenced fields, override display values,
column-visibility restriction -/

/-- `[a-zA-Z_]`, the first character of a field reference. -/
def isIdentStart (c : Char) : Bool := c.isAlpha || c = '_'

/-- `[a-zA-Z0-9_]`, a continuation character of a field reference. -/
def isIdentChar (c : Char) : Bool := c.isAlphanum || c = '_'

/-- One left-to-right pass of the global regex
`\.[a-zA-Z_][a-zA-Z0-9_]*` over the filter expression, collecting the
matches without their leading dot.  The fuel argument (instantiated with the
input length) only serves structural recursion; every call consumes at least
one character. -/
def scanFieldsFuel : Nat → List Char → List String
  | 0, _ => []
  | _ + 1, [] => []
  | fuel + 1, '.' :: c :: rest =>
    if isIdentStart c then
      String.mk (c :: rest.takeWhile isIdentChar)
        :: scanFieldsFuel fuel (rest.dropWhile isIdentChar)
    else scanFieldsFuel fuel (c :: rest)
  | fuel + 1, _ :: rest => scanFieldsFuel fuel rest

/-- The `filteredFields` memo: `[]` for a falsy `searchFilter`, otherwise the
de-duplicated field names referenced by the filter expression, in order of
first appearance. -/
def filteredFieldsOf : Option String → List String
  | Option.none => []
  | some s =>
    if s = "" then []
    else dedupFirst (scanFieldsFuel s.data.length s.data)

/-- The `filteredFieldValues` state: element id to (field name to display
string). -/
def FilteredFieldValues : Type := String → Option (String → Option String)

mutual

/-- JS `toString()` on an attribute value: strings are themselves, numbers
decimal, booleans `true`/`false`, arrays the comma-join of their elements
(`null` inside an array joins as the empty string, and a top-level `null`
never reaches `toString` thanks to the `?.` chain). -/
def jsValueToString : AttributeValue → String
  | AttributeValue.vStr s => s
  | AttributeValue.vNum n => toString n
  | AttributeValue.vBool b => if b then "true" else "false"
  | AttributeValue.vArr l => String.intercalate "," (jsValueStrings l)
  | AttributeValue.vNull => ""

def jsValueStrings : List AttributeValue → List String
  | [] => []
  | v :: vs => jsValueToString v :: jsValueStrings vs

end

/-- `v?.toString()` coalesced from `undefined` to a string: empty for an
absent field and for JSON `null`. -/
def jsDisplayString : Option AttributeValue → String
  | Option.none => ""
  | some AttributeValue.vNull => ""
  | some v => jsValueToString v

/-- JS `s || t` for strings: `t` when `s` is empty. -/
def jsStrOr (s t : String) : String := if s ≠ "" then s else t

/-- One iteration of the inner `for (const field of filteredFields)` loop:
store `parsedAttributes[field]?.toString() || ""` under the field name. -/
def fieldStep (pa : ParsedAttributes) (inner : String → Option String)
    (field : String) : String → Option String :=
  Function.update inner field
    (some (jsStrOr (jsDisplayString (List.lookup field pa)) ""))

/-- The inner record built for one element: one entry per referenced field. -/
def fieldDisplayMap (filteredFields : List String) (pa : ParsedAttributes) :
    String → Option String :=
  filteredFields.foldl (fieldStep pa) (fun _ => Option.none)

/-- One iteration of the outer `for (const row of results)` loop: elements
with no parsed attributes get no entry. -/
def rowStep (filteredFields : List String) (parsedCache : ParsedCache)
    (acc : FilteredFieldValues) (row : Row) : FilteredFieldValues :=
  match parsedCache row.1 with
  | some pa =>
    Function.update acc row.1 (some (fieldDisplayMap filteredFields pa))
  | Option.none => acc

/-- The body of the filtered-field-values effect: build `newValues` from
scratch over the current results. -/
def computeFilteredFieldValues (results : List Row)
    (filteredFields : List String) (parsedCache : ParsedCache) :
    FilteredFieldValues :=
  results.foldl (rowStep filteredFields parsedCache) (fun _ => Option.none)

/-- The filtered-field-values effect including its guard: when attribute
display is off, filtered-only mode is off, or no fields are referenced, the
previous state is kept (nothing is recomputed). -/
def filteredFieldValuesEffect (showAttributes showOnlyFilteredAttributes : Bool)
    (filteredFields : List String) (results : List Row)
    (parsedCache : ParsedCache) (prev : FilteredFieldValues) :
    FilteredFieldValues :=
  if !showAttributes || !showOnlyFilteredAttributes || filteredFields.isEmpty
  then prev
  else computeFilteredFieldValues results filteredFields parsedCache

/-- The rendering lookup `filteredFieldValues[row[0]]?.[field] || ""`. -/
def displayedFilteredValue (ffv : FilteredFieldValues)
    (element field : String) : String :=
  match ffv element with
  | Option.none => ""
  | some inner =>
    match inner field with
    | Option.none => ""
    | some s => jsStrOr s ""

/-- The column-visibility effect: with attributes hidden, or filtered-only
mode active without a filter, hide every attribute column; otherwise make an
attribute column visible iff filtered-only mode is off or its name is
referenced by the filter.  System columns are never touched. -/
def applyFilteredOnlyVisibility (showAttributes showOnlyFilteredAttributes : Bool)
    (searchFilter : Option String) (filteredFields : List String)
    (prev : List ColumnConfig) : List ColumnConfig :=
  if !showAttributes || (showOnlyFilteredAttributes && jsStrFalsy searchFilter)
  then
    prev.map (fun col =>
      { col with visible :=
          if col.type = ColType.system then col.visible else false })
  else
    prev.map (fun col =>
      if col.type = ColType.system then col
      else
        { col with visible :=
            !showOnlyFilteredAttributes
              || (showOnlyFilteredAttributes
                  && filteredFields.contains col.name) })

/-! ### Component state, dataset-identity reset and fetch completion -/

/-- The `VectorResults` state relevant to the cache/schema/selection claims,
plus a dataset-generation counter: the counter increments exactly when
`keyName` changes, so "current generation" identifies the dataset identity. -/
structure CompState where
  attributeCache : RawCache
  parsedAttributeCache : ParsedCache
  availableColumns : List ColumnConfig
  filteredFieldValues : FilteredFieldValues
  editingAttributes : Option String
  sortColumn : SortColumn
  sortDirection : SortDirection
  filterText : String
  isLoadingAttributes : Bool
  selectMode : Bool
  selectedElements : List String
  generation : Nat

/-- The two `useEffect`s that run on a `keyName` change (they are declared
before the fetch effect, so they run before any new fetch starts): clear the
selection and selection mode, reset the columns to the two system columns
(visibility from the persisted capability), and empty every cache and
filter/sort state. -/
def keyNameChange (getVis : String → Bool → Bool) (s : CompState) : CompState :=
  { attributeCache := fun _ => Option.none
    parsedAttributeCache := fun _ => Option.none
    availableColumns :=
      [{ name := "element", visible := getVis "element" true,
         type := ColType.system },
       { name := "score", visible := getVis "score" true,
         type := ColType.system }]
    filteredFieldValues := fun _ => Option.none
    editingAttributes := Option.none
    sortColumn := SortColumn.none
    sortDirection := SortDirection.asc
    filterText := ""
    isLoadingAttributes := false
    selectMode := false
    selectedElements := []
    generation := s.generation + 1 }

/-- Resolution of one `fetchAndProcessAttributes` call.  `isCancelled` is the
closure flag set by the effect cleanup: if it is set, the function returns
before touching any state (even on the failure path).  Otherwise a `null`
response only clears the loading flag, and a successful response merges the
batch through `processBatch` and rebuilds the columns. -/
def completeFetch (getVis : String → Bool → Bool)
    (parseJson : String → Option ParsedAttributes) (isCancelled : Bool)
    (elements : List String) (attrs : Option (List (Option String)))
    (s : CompState) : CompState :=
  if isCancelled then s
  else
    match attrs with
    | Option.none => { s with isLoadingAttributes := false }
    | some a =>
      let r := processBatch parseJson s.attributeCache (elements.zip a)
      { s with
        attributeCache := r.1
        parsedAttributeCache := r.2.1
        availableColumns := updateColumnsAfterBatch getVis s.availableColumns r.2.2
        isLoadingAttributes := false }

/-- A fetch tagged with the generation at which it started: the cleanup of
the fetch effect has run (setting `isCancelled`) whenever the effect's
dependencies changed since the fetch started — in particular whenever the
dataset generation moved on. -/
def completeFetchAtGen (getVis : String → Bool → Bool)
    (parseJson : String → Option ParsedAttributes) (startGen : Nat)
    (elements : List String) (attrs : Option (List (Option String)))
    (s : CompState) : CompState :=
  completeFetch getVis parseJson (startGen != s.generation) elements attrs s

/-! ### The `vinfo_multi` bulk key-metadata command -/

/-- The shape of `body.keyNames` in the untyped (`any`) request body:
missing/falsy, a truthy non-array, or an array of strings. -/
inductive JsKeyNamesField where
  | absent
  | notArray
  | array (l : List String)
deriving DecidableEq, Repr

/-- The request body as far as `validateVinfoMultiRequest` reads it. -/
structure VinfoMultiRequestBody where
  keyNames : JsKeyNamesField
  returnCommandOnly : Option Bool
deriving DecidableEq, Repr

/-- The validated `VinfoMultiRequest`. -/
structure VinfoMultiRequest where
  keyNames : List String
  returnCommandOnly : Bool
deriving DecidableEq, Repr

/-- The `{ isValid, error?, value? }` result of validation. -/
structure ValidationOutcome where
  isValid : Bool
  error : Option String
  value : Option VinfoMultiRequest
deriving DecidableEq, Repr

/-- `validateVinfoMultiRequest`: reject a missing/non-array/empty `keyNames`,
then reject on the first key name failing `validateKeyName` (an external
utility, passed as a parameter); otherwise accept, carrying the key names
through and reading `returnCommandOnly === true`. -/
def validateVinfoMultiRequest (validateKeyName : String → Bool)
    (body : VinfoMultiRequestBody) : ValidationOutcome :=
  match body.keyNames with
  | JsKeyNamesField.absent =>
    { isValid := false
      error := some "Key names array is required and must not be empty"
      value := Option.none }
  | JsKeyNamesField.notArray =>
    { isValid := false
      error := some "Key names array is required and must not be empty"
      value := Option.none }
  | JsKeyNamesField.array l =>
    if l.length = 0 then
      { isValid := false
        error := some "Key names array is required and must not be empty"
        value := Option.none }
    else
      match l.find? (fun keyName => !(validateKeyName keyName)) with
      | some keyName =>
        { isValid := false
          error := some ("Invalid key name: " ++ keyName)
          value := Option.none }
      | Option.none =>
        { isValid := true
          error := Option.none
          value := some
            { keyNames := l
              returnCommandOnly := body.returnCommandOnly == some true } }

/-- `buildVinfoMultiCommand`: one `VINFO` sub-command per key name. -/
def buildVinfoMultiCommand (request : VinfoMultiRequest) : List (List String) :=
  request.keyNames.map (fun keyName => ["VINFO", keyName])

/-! ### Pipeline comparator laws -/

theorem localeCompareModel_nonpos (a b : String) :
    localeCompareModel a b ≤ 0 ↔ a.data ≤ b.data := by
  unfold localeCompareModel
  by_cases h1 : a.data < b.data
  · simp only [if_pos h1]
    norm_num
    exact le_of_lt h1
  · by_cases h2 : b.data < a.data
    · simp only [if_neg h1, if_pos h2]
      constructor
      · intro hc
        exact absurd hc (by norm_num)
      · intro hle
        exact absurd (lt_of_lt_of_le h2 hle) (lt_irrefl _)
    · simp only [if_neg h1, if_neg h2]
      norm_num
      exact not_lt.mp h2

theorem localeCompareModel_nonneg (a b : String) :
    0 ≤ localeCompareModel a b ↔ b.data ≤ a.data := by
  unfold localeCompareModel
  by_cases h1 : a.data < b.data
  · simp only [if_pos h1]
    constructor
    · intro hc
      exact absurd hc (by norm_num)
    · intro hle
      exact absurd (lt_of_lt_of_le h1 hle) (lt_irrefl _)
  · by_cases h2 : b.data < a.data
    · simp only [if_neg h1, if_pos h2]
      norm_num
      exact le_of_lt h2
    · simp only [if_neg h1, if_neg h2]
      norm_num
      exact not_lt.mp h1

theorem sortLe_total (col : SortColumn) (dir : SortDirection) (a b : Row) :
    (sortLe col dir a b || sortLe col dir b a) = true := by
  rw [Bool.or_eq_true]
  simp only [sortLe, decide_eq_true_eq]
  have dne : ¬ (SortDirection.desc = SortDirection.asc) := by decide
  cases col <;> cases dir <;> simp only [sortComparator, reduceIte]
  · rw [localeCompareModel_nonpos, localeCompareModel_nonpos]
    exact le_total _ _
  · rw [if_neg dne, if_neg dne, neg_nonpos, neg_nonpos,
      localeCompareModel_nonneg, localeCompareModel_nonneg]
    exact le_total _ _
  · omega
  · rw [if_neg dne, if_neg dne]
    omega
  · left
    norm_num
  · left
    norm_num

theorem sortLe_trans (col : SortColumn) (dir : SortDirection) (a b c : Row)
    (h1 : sortLe col dir a b = true) (h2 : sortLe col dir b c = true) :
    sortLe col dir a c = true := by
  have dne : ¬ (SortDirection.desc = SortDirection.asc) := by decide
  simp only [sortLe, decide_eq_true_eq] at h1 h2 ⊢
  cases col <;> cases dir <;>
    simp only [sortComparator, reduceIte] at h1 h2 ⊢
  · rw [localeCompareModel_nonpos] at h1 h2 ⊢
    exact le_trans h1 h2
  · rw [if_neg dne] at h1 h2 ⊢
    rw [neg_nonpos, localeCompareModel_nonneg] at h1 h2 ⊢
    exact le_trans h2 h1
  · omega
  · rw [if_neg dne] at h1 h2 ⊢
    omega
  · norm_num
  · norm_num

/-- Claim C4: the result view pipeline first retains (when the trimmed filter
text is non-empty) exactly the rows whose element identifier contains the
filter text case-insensitively, preserving the original relative order
(a sublist of the input); with sort column `none` the step-1 list is returned
unmodified; otherwise the output is a permutation of the step-1 list that is
sorted by the comparator (locale-aware on element identifiers, numeric on
scores, direction per the sort direction). -/
theorem C4_resultViewPipeline (results : List Row) (filterText : String)
    (col : SortColumn) (dir : SortDirection) :
    (textFilterStep filterText results).Sublist results
    ∧ (jsTrim filterText ≠ "" →
        textFilterStep filterText results
          = results.filter (elementMatchesFilter filterText))
    ∧ (jsTrim filterText = "" → textFilterStep filterText results = results)
    ∧ filteredAndSortedResults results filterText SortColumn.none dir
        = textFilterStep filterText results
    ∧ (col ≠ SortColumn.none →
        (filteredAndSortedResults results filterText col dir).Perm
            (textFilterStep filterText results)
        ∧ (filteredAndSortedResults results filterText col dir).Pairwise
            (fun a b => sortLe col dir a b = true)) := by
  refine ⟨?_, ?_, ?_, ?_, ?_⟩
  · unfold textFilterStep
    split
    · exact List.filter_sublist results
    · exact List.Sublist.refl results
  · intro h
    unfold textFilterStep
    rw [if_pos h]
  · intro h
    unfold textFilterStep
    rw [if_neg (by simp [h])]
  · unfold filteredAndSortedResults
    rw [if_pos rfl]
  · intro hcol
    unfold filteredAndSortedResults
    rw [if_neg hcol]
    exact ⟨List.mergeSort_perm _ _,
      List.sorted_mergeSort (sortLe_trans col dir) (sortLe_total col dir) _⟩

theorem C4_resultViewPipeline_witness :
    jsTrim "e" ≠ ""
    ∧ textFilterStep "e" ([("e1", 9), ("b2", 5), ("e2", 1)] : List Row)
        = ([("e1", 9), ("b2", 5), ("e2", 1)] : List Row).filter
            (elementMatchesFilter "e")
    ∧ SortColumn.score ≠ SortColumn.none
    ∧ (filteredAndSortedResults ([("e1", 9), ("b2", 5), ("e2", 1)] : List Row)
          "e" SortColumn.score SortDirection.asc).Perm
        (textFilterStep "e" ([("e1", 9), ("b2", 5), ("e2", 1)] : List Row))
    ∧ (filteredAndSortedResults ([("e1", 9), ("b2", 5), ("e2", 1)] : List Row)
          "e" SortColumn.score SortDirection.asc).Pairwise
        (fun a b => sortLe SortColumn.score SortDirection.asc a b = true) := by
  have h := C4_resultViewPipeline ([("e1", 9), ("b2", 5), ("e2", 1)] : List Row)
    "e" SortColumn.score SortDirection.asc
  exact ⟨by decide, h.2.1 (by decide), by decide,
    (h.2.2.2.2 (by decide)).1, (h.2.2.2.2 (by decide)).2⟩

/-- Claim C5: from the no-sort state, three successive clicks on a sortable
column (`element` or `score`) take the sort state through ascending, then
descending, then back to no active sort (column `none`); clicking a column
different from the current sort column selects it with ascending direction. -/
theorem C5_threeStateSortCycle :
    (∀ c : SortColumn, c = SortColumn.element ∨ c = SortColumn.score →
      handleSort c { column := SortColumn.none, direction := SortDirection.asc }
          = { column := c, direction := SortDirection.asc }
        ∧ handleSort c (handleSort c
            { column := SortColumn.none, direction := SortDirection.asc })
          = { column := c, direction := SortDirection.desc }
        ∧ (handleSort c (handleSort c (handleSort c
            { column := SortColumn.none, direction := SortDirection.asc }))).column
          = SortColumn.none)
    ∧ ∀ (s : SortState) (c : SortColumn), c ≠ s.column →
        handleSort c s = { column := c, direction := SortDirection.asc } := by
  constructor
  · intro c hc
    rcases hc with rfl | rfl <;> exact ⟨by decide, by decide, by decide⟩
  · intro s c hne
    unfold handleSort
    rw [if_neg (fun h => hne h.symm)]

theorem C5_threeStateSortCycle_witness :
    (SortColumn.element = SortColumn.element
      ∨ SortColumn.element = SortColumn.score)
    ∧ handleSort SortColumn.element
        { column := SortColumn.none, direction := SortDirection.asc }
      = { column := SortColumn.element, direction := SortDirection.asc }
    ∧ handleSort SortColumn.element (handleSort SortColumn.element
        { column := SortColumn.none, direction := SortDirection.asc })
      = { column := SortColumn.element, direction := SortDirection.desc }
    ∧ (handleSort SortColumn.element (handleSort SortColumn.element
        (handleSort SortColumn.element
          { column := SortColumn.none, direction := SortDirection.asc }))).column
      = SortColumn.none
    ∧ SortColumn.score
        ≠ ({ column := SortColumn.element, direction := SortDirection.desc }
            : SortState).column
    ∧ handleSort SortColumn.score
        { column := SortColumn.element, direction := SortDirection.desc }
      = { column := SortColumn.score, direction := SortDirection.asc } := by
  have h := C5_threeStateSortCycle
  have h1 := h.1 SortColumn.element (Or.inl rfl)
  exact ⟨Or.inl rfl, h1.1, h1.2.1, h1.2.2, by decide,
    h.2 { column := SortColumn.element, direction := SortDirection.desc }
      SortColumn.score (by decide)⟩

theorem batchStep_raw (pj : String → Option ParsedAttributes)
    (acc : RawCache × ParsedCache × List String) (p : String × Option String) :
    (batchStep pj acc p).1 = Function.update acc.1 p.1 (some p.2) := by
  unfold batchStep
  cases p.2 with
  | none => rfl
  | some s =>
    by_cases hs : s = ""
    · simp [hs]
    · cases hpj : pj s <;> simp [hs, hpj]

theorem batchStep_parsed (pj : String → Option ParsedAttributes)
    (acc : RawCache × ParsedCache × List String) (p : String × Option String) :
    (batchStep pj acc p).2.1
      = match expectedParse pj p.2 with
        | some parsed => Function.update acc.2.1 p.1 (some parsed)
        | Option.none => acc.2.1 := by
  unfold batchStep expectedParse
  cases p.2 with
  | none => rfl
  | some s =>
    by_cases hs : s = ""
    · simp [hs]
    · cases hpj : pj s <;> simp [hs, hpj]

theorem batchStep_raw_noteq (pj : String → Option ParsedAttributes)
    (acc : RawCache × ParsedCache × List String) (p : String × Option String)
    (e : String) (hne : e ≠ p.1) : (batchStep pj acc p).1 e = acc.1 e := by
  rw [batchStep_raw]
  exact Function.update_noteq hne _ _

theorem batchStep_parsed_noteq (pj : String → Option ParsedAttributes)
    (acc : RawCache × ParsedCache × List String) (p : String × Option String)
    (e : String) (hne : e ≠ p.1) : (batchStep pj acc p).2.1 e = acc.2.1 e := by
  rw [batchStep_parsed]
  split
  · exact Function.update_noteq hne _ _
  · rfl

theorem foldl_batchStep_raw_not_mem (pj : String → Option ParsedAttributes) :
    ∀ (pairs : List (String × Option String))
      (acc : RawCache × ParsedCache × List String) (e : String),
      e ∉ pairs.map Prod.fst →
      (pairs.foldl (batchStep pj) acc).1 e = acc.1 e := by
  intro pairs
  induction pairs with
  | nil => intro acc e _; rfl
  | cons p rest ih =>
    intro acc e h
    rw [List.map_cons, List.mem_cons] at h
    push_neg at h
    rw [List.foldl_cons, ih _ e h.2]
    exact batchStep_raw_noteq pj acc p e h.1

theorem foldl_batchStep_parsed_not_mem (pj : String → Option ParsedAttributes) :
    ∀ (pairs : List (String × Option String))
      (acc : RawCache × ParsedCache × List String) (e : String),
      e ∉ pairs.map Prod.fst →
      (pairs.foldl (batchStep pj) acc).2.1 e = acc.2.1 e := by
  intro pairs
  induction pairs with
  | nil => intro acc e _; rfl
  | cons p rest ih =>
    intro acc e h
    rw [List.map_cons, List.mem_cons] at h
    push_neg at h
    rw [List.foldl_cons, ih _ e h.2]
    exact batchStep_parsed_noteq pj acc p e h.1

theorem foldl_batchStep_mem (pj : String → Option ParsedAttributes) :
    ∀ (pairs : List (String × Option String))
      (acc : RawCache × ParsedCache × List String) (e : String)
      (a : Option String),
      (pairs.map Prod.fst).Nodup → (e, a) ∈ pairs →
      (pairs.foldl (batchStep pj) acc).1 e = some a
      ∧ (pairs.foldl (batchStep pj) acc).2.1 e
        = (match expectedParse pj a with
           | some parsed => some parsed
           | Option.none => acc.2.1 e) := by
  intro pairs
  induction pairs with
  | nil => intro acc e a _ hmem; cases hmem
  | cons p rest ih =>
    intro acc e a hnd hmem
    obtain ⟨pe, pa⟩ := p
    rw [List.map_cons] at hnd
    rw [List.foldl_cons]
    rcases List.mem_cons.mp hmem with heq | hrest
    · injection heq with h1 h2
      subst h1
      subst h2
      have hnot : e ∉ rest.map Prod.fst := (List.nodup_cons.mp hnd).1
      constructor
      · rw [foldl_batchStep_raw_not_mem pj rest _ e hnot, batchStep_raw]
        show Function.update acc.1 e (some a) e = some a
        exact Function.update_same _ _ _
      · rw [foldl_batchStep_parsed_not_mem pj rest _ e hnot, batchStep_parsed]
        show (match expectedParse pj a with
              | some parsed => Function.update acc.2.1 e (some parsed)
              | Option.none => acc.2.1) e
            = (match expectedParse pj a with
              | some parsed => some parsed
              | Option.none => acc.2.1 e)
        cases expectedParse pj a with
        | none => rfl
        | some parsed => exact Function.update_same _ _ _
    · have hkey : e ∈ rest.map Prod.fst := by
        have := List.mem_map_of_mem Prod.fst hrest
        exact this
      have hne : e ≠ (pe, pa).1 := by
        intro hcontra
        exact (List.nodup_cons.mp hnd).1 (hcontra ▸ hkey)
      have hmain := ih (batchStep pj acc (pe, pa)) e a (List.nodup_cons.mp hnd).2 hrest
      refine ⟨hmain.1, ?_⟩
      rw [hmain.2]
      have hb := batchStep_parsed_noteq pj acc (pe, pa) e hne
      cases expectedParse pj a with
      | none => exact hb
      | some parsed => rfl

/-- Claim C7: in a batched attribute fetch, an element whose raw payload
fails to parse still has its raw payload stored in the raw cache, has no
entry in the parsed mapping, and every other element of the batch is
processed exactly as usual (the failure never aborts the batch). -/
theorem C7_parseFailureIsolated (pj : String → Option ParsedAttributes)
    (prevRaw : RawCache) (pairs : List (String × Option String))
    (e s : String)
    (hnd : (pairs.map Prod.fst).Nodup)
    (hmem : (e, some s) ∈ pairs) (hs : s ≠ "") (hfail : pj s = Option.none) :
    (processBatch pj prevRaw pairs).1 e = some (some s)
    ∧ (processBatch pj prevRaw pairs).2.1 e = Option.none
    ∧ ∀ q : String × Option String, q ∈ pairs → q.1 ≠ e →
        (processBatch pj prevRaw pairs).1 q.1 = some q.2
        ∧ (processBatch pj prevRaw pairs).2.1 q.1 = expectedParse pj q.2 := by
  have hm := foldl_batchStep_mem pj pairs
    (prevRaw, fun _ => Option.none, []) e (some s) hnd hmem
  unfold processBatch
  refine ⟨hm.1, ?_, ?_⟩
  · rw [hm.2]
    simp [expectedParse, hs, hfail]
  · intro q hq _
    obtain ⟨q1, q2⟩ := q
    have hmq := foldl_batchStep_mem pj pairs
      (prevRaw, fun _ => Option.none, []) q1 q2 hnd hq
    refine ⟨hmq.1, ?_⟩
    rw [hmq.2]
    cases expectedParse pj q2 with
    | none => rfl
    | some parsed => rfl

theorem C7_parseFailureIsolated_witness :
    (([("e1", some "payloadA"), ("e2", some "bad")]
        : List (String × Option String)).map Prod.fst).Nodup
    ∧ ("e2", some "bad")
        ∈ ([("e1", some "payloadA"), ("e2", some "bad")]
            : List (String × Option String))
    ∧ "bad" ≠ ""
    ∧ pjSample "bad" = Option.none
    ∧ (processBatch pjSample (fun _ => Option.none)
        [("e1", some "payloadA"), ("e2", some "bad")]).1 "e2"
      = some (some "bad")
    ∧ (processBatch pjSample (fun _ => Option.none)
        [("e1", some "payloadA"), ("e2", some "bad")]).2.1 "e2"
      = Option.none
    ∧ (processBatch pjSample (fun _ => Option.none)
        [("e1", some "payloadA"), ("e2", some "bad")]).1 "e1"
      = some (some "payloadA")
    ∧ (processBatch pjSample (fun _ => Option.none)
        [("e1", some "payloadA"), ("e2", some "bad")]).2.1 "e1"
      = expectedParse pjSample (some "payloadA") := by
  have h := C7_parseFailureIsolated pjSample (fun _ => Option.none)
    [("e1", some "payloadA"), ("e2", some "bad")] "e2" "bad"
    (by decide) (by decide) (by decide) (by rfl)
  have h3 := h.2.2 ("e1", some "payloadA") (by decide) (by decide)
  exact ⟨by decide, by decide, by decide, rfl, h.1, h.2.1, h3.1, h3.2⟩

/-- Claim C10: a completed (non-cancelled) batch fetch merges the raw
payloads into the previous raw cache (one entry per fetched element, entries
for other elements preserved) but replaces the parsed cache wholesale: it
holds exactly the fetched elements whose payloads were truthy and parsed,
and every previously parsed entry for an element outside the batch is gone. -/
theorem C10_batchCacheFrame (pj : String → Option ParsedAttributes)
    (prevRaw : RawCache) (pairs : List (String × Option String))
    (hnd : (pairs.map Prod.fst).Nodup) :
    (∀ e : String, e ∉ pairs.map Prod.fst →
        (processBatch pj prevRaw pairs).1 e = prevRaw e
        ∧ (processBatch pj prevRaw pairs).2.1 e = Option.none)
    ∧ ∀ q : String × Option String, q ∈ pairs →
        (processBatch pj prevRaw pairs).1 q.1 = some q.2
        ∧ (processBatch pj prevRaw pairs).2.1 q.1 = expectedParse pj q.2 := by
  unfold processBatch
  constructor
  · intro e he
    exact ⟨foldl_batchStep_raw_not_mem pj pairs _ e he,
      foldl_batchStep_parsed_not_mem pj pairs _ e he⟩
  · intro q hq
    obtain ⟨q1, q2⟩ := q
    have hmq := foldl_batchStep_mem pj pairs
      (prevRaw, fun _ => Option.none, []) q1 q2 hnd hq
    refine ⟨hmq.1, ?_⟩
    rw [hmq.2]
    cases expectedParse pj q2 with
    | none => rfl
    | some parsed => rfl

theorem C10_batchCacheFrame_witness :
    (([("e1", some "payloadA")] : List (String × Option String)).map
        Prod.fst).Nodup
    ∧ "old" ∉ ([("e1", some "payloadA")]
        : List (String × Option String)).map Prod.fst
    ∧ (processBatch pjSample prevRawSample [("e1", some "payloadA")]).1 "old"
        = prevRawSample "old"
    ∧ (processBatch pjSample prevRawSample [("e1", some "payloadA")]).2.1 "old"
        = Option.none
    ∧ ("e1", some "payloadA")
        ∈ ([("e1", some "payloadA")] : List (String × Option String))
    ∧ (processBatch pjSample prevRawSample [("e1", some "payloadA")]).1 "e1"
        = some (some "payloadA")
    ∧ (processBatch pjSample prevRawSample [("e1", some "payloadA")]).2.1 "e1"
        = expectedParse pjSample (some "payloadA") := by
  have h := C10_batchCacheFrame pjSample prevRawSample
    [("e1", some "payloadA")] (by decide)
  have h1 := h.1 "old" (by decide)
  have h2 := h.2 ("e1", some "payloadA") (by decide)
  exact ⟨by decide, by decide, h1.1, h1.2, by decide, h2.1, h2.2⟩

/-- Claim C1 (counterexample): a column (`"a"`) added by one batch fetch is
removed by a later batch fetch whose payloads carry only other fields
(`"b"`), so the attribute column set does not only grow. -/
theorem C1_counterexample :
    "a" ∈ (updateColumnsAfterBatch (fun _ _ => true)
        [{ name := "element", visible := true, type := ColType.system },
         { name := "score", visible := true, type := ColType.system }]
        (processBatch pjSample (fun _ => Option.none)
          [("e1", some "payloadA")]).2.2).map ColumnConfig.name
    ∧ "a" ∉ (updateColumnsAfterBatch (fun _ _ => true)
        (updateColumnsAfterBatch (fun _ _ => true)
          [{ name := "element", visible := true, type := ColType.system },
           { name := "score", visible := true, type := ColType.system }]
          (processBatch pjSample (fun _ => Option.none)
            [("e1", some "payloadA")]).2.2)
        (processBatch pjSample (fun _ => Option.none)
          [("e2", some "payloadB")]).2.2).map ColumnConfig.name := by
  constructor
  · show "a" ∈ ["element", "score", "a"]
    decide
  · show "a" ∉ ["element", "score", "b"]
    decide

/-- Claim C1 (amended): a batch fetch replaces the attribute columns with
exactly the field names observed in that batch (system columns preserved
unchanged), so attribute columns are only monotone across visibility toggles
(which preserve the name list) and single-element attribute updates (which
only append); they are not preserved across later batch fetches. -/
theorem C1_amended_columnEvolution :
    (∀ (getVis : String → Bool → Bool) (prev : List ColumnConfig)
        (attrNames : List String),
      ((updateColumnsAfterBatch getVis prev attrNames).filter
          (fun c => decide (c.type = ColType.attr))).map ColumnConfig.name
        = attrNames
      ∧ (updateColumnsAfterBatch getVis prev attrNames).filter
          (fun c => decide (c.type = ColType.system))
        = prev.filter (fun c => decide (c.type = ColType.system)))
    ∧ (∀ (columnName : String) (visible : Bool) (prev : List ColumnConfig),
        (handleToggleColumn columnName visible prev).map ColumnConfig.name
          = prev.map ColumnConfig.name)
    ∧ ∀ (newKeys : List String) (prev : List ColumnConfig)
        (col : ColumnConfig), col ∈ prev →
          col ∈ dialogCloseAddColumns newKeys prev := by
  refine ⟨?_, ?_, ?_⟩
  · intro getVis prev attrNames
    constructor
    · unfold updateColumnsAfterBatch
      rw [List.filter_append]
      have h1 : (prev.filter (fun col => decide (col.type = ColType.system))).filter
          (fun c => decide (c.type = ColType.attr)) = [] := by
        rw [List.filter_eq_nil_iff]
        intro c hc
        have := (List.mem_filter.mp hc).2
        simp only [decide_eq_true_eq] at this ⊢
        rw [this]
        decide
      rw [h1, List.nil_append, List.filter_map]
      have h2 : (attrNames.filter
          ((fun c => decide (c.type = ColType.attr)) ∘ (fun n =>
            ({ name := n, visible := getVis n true, type := ColType.attr }
              : ColumnConfig)))) = attrNames := by
        rw [List.filter_eq_self]
        intro n _
        rfl
      rw [h2, List.map_map]
      exact List.map_id attrNames
    · unfold updateColumnsAfterBatch
      rw [List.filter_append]
      have h1 : ((attrNames.map (fun n =>
          ({ name := n, visible := getVis n true, type := ColType.attr }
            : ColumnConfig))).filter
          (fun c => decide (c.type = ColType.system))) = [] := by
        rw [List.filter_eq_nil_iff]
        intro c hc
        obtain ⟨n, _, rfl⟩ := List.mem_map.mp hc
        simp
      rw [h1, List.append_nil, List.filter_filter]
      apply List.filter_congr
      intro c _
      simp
  · intro columnName visible prev
    unfold handleToggleColumn
    rw [List.map_map]
    apply List.map_congr_left
    intro c _
    by_cases h : c.name = columnName <;> simp [h]
  · intro newKeys prev col hcol
    exact List.mem_append_left _ hcol

theorem C1_amended_columnEvolution_witness :
    ((updateColumnsAfterBatch (fun _ _ => true)
        [{ name := "element", visible := true, type := ColType.system },
         { name := "a", visible := true, type := ColType.attr }]
        ["b"]).filter (fun c => decide (c.type = ColType.attr))).map
        ColumnConfig.name = ["b"]
    ∧ (handleToggleColumn "a" false
        [{ name := "a", visible := true, type := ColType.attr }]).map
        ColumnConfig.name
      = [({ name := "a", visible := true, type := ColType.attr }
          : ColumnConfig)].map ColumnConfig.name
    ∧ ({ name := "a", visible := true, type := ColType.attr } : ColumnConfig)
        ∈ [({ name := "a", visible := true, type := ColType.attr }
            : ColumnConfig)]
    ∧ ({ name := "a", visible := true, type := ColType.attr } : ColumnConfig)
        ∈ dialogCloseAddColumns ["c"]
            [{ name := "a", visible := true, type := ColType.attr }] := by
  have h := C1_amended_columnEvolution
  exact ⟨(h.1 (fun _ _ => true)
      [{ name := "element", visible := true, type := ColType.system },
       { name := "a", visible := true, type := ColType.attr }] ["b"]).1,
    h.2.1 "a" false [{ name := "a", visible := true, type := ColType.attr }],
    by decide,
    h.2.2 ["c"] [{ name := "a", visible := true, type := ColType.attr }]
      { name := "a", visible := true, type := ColType.attr } (by decide)⟩

theorem jsStrOr_empty (s : String) : jsStrOr s "" = s := by
  unfold jsStrOr
  split
  · rfl
  · next h =>
    push_neg at h
    exact h.symm

theorem foldl_fieldStep_not_mem (pa : ParsedAttributes) :
    ∀ (ff : List String) (acc : String → Option String) (f : String),
      f ∉ ff → (ff.foldl (fieldStep pa) acc) f = acc f := by
  intro ff
  induction ff with
  | nil => intro acc f _; rfl
  | cons g rest ih =>
    intro acc f hf
    rw [List.mem_cons] at hf
    push_neg at hf
    rw [List.foldl_cons, ih _ f hf.2]
    unfold fieldStep
    exact Function.update_noteq hf.1 _ _

theorem foldl_fieldStep_mem (pa : ParsedAttributes) :
    ∀ (ff : List String) (acc : String → Option String) (f : String),
      f ∈ ff →
      (ff.foldl (fieldStep pa) acc) f
        = some (jsStrOr (jsDisplayString (List.lookup f pa)) "") := by
  intro ff
  induction ff with
  | nil => intro acc f hf; cases hf
  | cons g rest ih =>
    intro acc f hf
    rw [List.foldl_cons]
    by_cases hr : f ∈ rest
    · exact ih _ f hr
    · have hg : f = g := by
        rcases List.mem_cons.mp hf with h | h
        · exact h
        · exact absurd h hr
      subst hg
      rw [foldl_fieldStep_not_mem pa rest _ f hr]
      unfold fieldStep
      exact Function.update_same _ _ _

theorem foldl_rowStep_none (ff : List String) (pc : ParsedCache) (e : String)
    (hpc : pc e = Option.none) :
    ∀ (results : List Row) (acc : FilteredFieldValues),
      (results.foldl (rowStep ff pc) acc) e = acc e := by
  intro results
  induction results with
  | nil => intro acc; rfl
  | cons r rest ih =>
    intro acc
    rw [List.foldl_cons, ih]
    unfold rowStep
    by_cases he : r.1 = e
    · rw [he, hpc]
    · cases pc r.1 with
      | none => rfl
      | some pa => exact Function.update_noteq (fun h => he h.symm) _ _

theorem foldl_rowStep_not_mem (ff : List String) (pc : ParsedCache)
    (e : String) :
    ∀ (results : List Row) (acc : FilteredFieldValues),
      e ∉ results.map Prod.fst →
      (results.foldl (rowStep ff pc) acc) e = acc e := by
  intro results
  induction results with
  | nil => intro acc _; rfl
  | cons r rest ih =>
    intro acc he
    rw [List.map_cons, List.mem_cons] at he
    push_neg at he
    rw [List.foldl_cons, ih _ he.2]
    unfold rowStep
    cases pc r.1 with
    | none => rfl
    | some pa => exact Function.update_noteq he.1 _ _

theorem foldl_rowStep_mem (ff : List String) (pc : ParsedCache) (e : String)
    (pa : ParsedAttributes) (hpc : pc e = some pa) :
    ∀ (results : List Row) (acc : FilteredFieldValues),
      e ∈ results.map Prod.fst →
      (results.foldl (rowStep ff pc) acc) e = some (fieldDisplayMap ff pa) := by
  intro results
  induction results with
  | nil => intro acc he; cases he
  | cons r rest ih =>
    intro acc he
    rw [List.foldl_cons]
    by_cases hr : e ∈ rest.map Prod.fst
    · exact ih _ hr
    · have hg : r.1 = e := by
        rw [List.map_cons, List.mem_cons] at he
        rcases he with h | h
        · exact h.symm
        · exact absurd h hr
      rw [foldl_rowStep_not_mem ff pc e rest _ hr]
      unfold rowStep
      rw [hg, hpc]
      exact Function.update_same _ _ _

/-- Claim C9 (counterexample): with filtered-only mode active, an element
whose parsed attributes carry the referenced field with value `""` displays
the empty string even though the field is present, so "empty exactly when the
field is absent" fails. -/
theorem C9_counterexample :
    displayedFilteredValue
      (computeFilteredFieldValues ([("e1", 0)] : List Row) ["f"]
        (fun e => if e = "e1"
          then some [("f", AttributeValue.vStr "")] else Option.none))
      "e1" "f" = ""
    ∧ List.lookup "f" ([("f", AttributeValue.vStr "")]
        : List (String × AttributeValue)) = some (AttributeValue.vStr "") := by
  exact ⟨rfl, rfl⟩

/-- Claim C9 (amended): with filtered-only mode active, the display string
for a row with parsed attributes is exactly the JS stringification of the
field's value (empty when the field is absent, `null`, or stringifies to the
empty string, e.g. `""` or an empty array); rows without parsed attributes
display the empty string for every field. -/
theorem C9_amended_filteredFieldDisplay (results : List Row)
    (filteredFields : List String) (pc : ParsedCache) (e f : String) :
    (e ∈ results.map Prod.fst → f ∈ filteredFields →
      ∀ pa : ParsedAttributes, pc e = some pa →
        displayedFilteredValue
            (computeFilteredFieldValues results filteredFields pc) e f
          = jsDisplayString (List.lookup f pa)
        ∧ (displayedFilteredValue
              (computeFilteredFieldValues results filteredFields pc) e f = ""
            ↔ List.lookup f pa = Option.none
              ∨ List.lookup f pa = some AttributeValue.vNull
              ∨ ∃ v, List.lookup f pa = some v ∧ jsValueToString v = ""))
    ∧ (pc e = Option.none →
        displayedFilteredValue
          (computeFilteredFieldValues results filteredFields pc) e f = "") := by
  constructor
  · intro he hf pa hpc
    have houter := foldl_rowStep_mem filteredFields pc e pa hpc results
      (fun _ => Option.none) he
    have hinner := foldl_fieldStep_mem pa filteredFields
      (fun _ => Option.none) f hf
    have hdisp : displayedFilteredValue
        (computeFilteredFieldValues results filteredFields pc) e f
        = jsDisplayString (List.lookup f pa) := by
      unfold displayedFilteredValue computeFilteredFieldValues
      rw [houter]
      show (match fieldDisplayMap filteredFields pa f with
            | Option.none => ""
            | some s => jsStrOr s "") = _
      unfold fieldDisplayMap
      rw [hinner]
      show jsStrOr (jsStrOr (jsDisplayString (List.lookup f pa)) "") "" = _
      rw [jsStrOr_empty, jsStrOr_empty]
    refine ⟨hdisp, ?_⟩
    rw [hdisp]
    cases hlk : List.lookup f pa with
    | none => simp [jsDisplayString]
    | some v =>
      cases v with
      | vStr s => simp [jsDisplayString, jsValueToString]
      | vNum n => simp [jsDisplayString, jsValueToString]
      | vBool b => simp [jsDisplayString, jsValueToString]
      | vArr l => simp [jsDisplayString, jsValueToString]
      | vNull => simp [jsDisplayString]
  · intro hpc
    unfold displayedFilteredValue computeFilteredFieldValues
    rw [foldl_rowStep_none filteredFields pc e hpc results (fun _ => Option.none)]

theorem C9_amended_filteredFieldDisplay_witness :
    "e1" ∈ ([("e1", 0)] : List Row).map Prod.fst
    ∧ "f" ∈ (["f"] : List String)
    ∧ (fun e => if e = "e1"
        then some ([("f", AttributeValue.vStr "hello")] : ParsedAttributes)
        else Option.none) "e1"
      = some ([("f", AttributeValue.vStr "hello")] : ParsedAttributes)
    ∧ displayedFilteredValue
        (computeFilteredFieldValues ([("e1", 0)] : List Row) ["f"]
          (fun e => if e = "e1"
            then some ([("f", AttributeValue.vStr "hello")] : ParsedAttributes)
            else Option.none)) "e1" "f"
      = jsDisplayString
          (List.lookup "f" ([("f", AttributeValue.vStr "hello")]
            : ParsedAttributes))
    ∧ (fun e => if e = "e2"
        then some ([("f", AttributeValue.vStr "hello")] : ParsedAttributes)
        else Option.none) "e1" = Option.none
    ∧ displayedFilteredValue
        (computeFilteredFieldValues ([("e1", 0)] : List Row) ["f"]
          (fun e => if e = "e2"
            then some ([("f", AttributeValue.vStr "hello")] : ParsedAttributes)
            else Option.none)) "e1" "f" = "" := by
  have h1 := (C9_amended_filteredFieldDisplay ([("e1", 0)] : List Row) ["f"]
    (fun e => if e = "e1"
      then some ([("f", AttributeValue.vStr "hello")] : ParsedAttributes)
      else Option.none) "e1" "f").1 (by decide) (by decide)
    [("f", AttributeValue.vStr "hello")] rfl
  have h2 := (C9_amended_filteredFieldDisplay ([("e1", 0)] : List Row) ["f"]
    (fun e => if e = "e2"
      then some ([("f", AttributeValue.vStr "hello")] : ParsedAttributes)
      else Option.none) "e1" "f").2 rfl
  exact ⟨by decide, by decide, rfl, h1.1, rfl, h2⟩

/-- Claim C3 (counterexample): with attribute display on and filtered-only
mode disabled, the visibility effect forces every attribute column visible,
ignoring both the persisted visibility capability and the visibility the
column held before — so columns do not revert to their user/persisted
visibility. -/
theorem C3_counterexample :
    ¬ (∀ (getVis : String → Bool → Bool) (prev : List ColumnConfig),
        ∀ col ∈ applyFilteredOnlyVisibility true false Option.none [] prev,
          col.type = ColType.attr → col.visible = getVis col.name true) := by
  intro h
  have hmem : ({ name := "a", visible := true, type := ColType.attr }
      : ColumnConfig)
      ∈ applyFilteredOnlyVisibility true false Option.none []
        [{ name := "a", visible := false, type := ColType.attr }] := by
    decide
  have := h (fun _ _ => false)
    [{ name := "a", visible := false, type := ColType.attr }]
    { name := "a", visible := true, type := ColType.attr } hmem rfl
  exact absurd this (by decide)

/-- Claim C3 (amended): when attribute display is on and filtered-only mode
is disabled, every attribute column is forced visible (regardless of any
persisted preference); when attribute display is off, or filtered-only mode
is on with no filter expression, every attribute column is forced hidden;
system columns keep their current visibility in every case; with no filter
expression no fields are referenced, and with the mode off or no referenced
fields the override display values are left untouched (not recomputed). -/
theorem C3_amended_visibilityModes (sa so : Bool) (sf : Option String)
    (ff : List String) (prev : List ColumnConfig) (pc : ParsedCache)
    (results : List Row) (prevFFV : FilteredFieldValues) :
    (applyFilteredOnlyVisibility true false sf ff prev
      = prev.map (fun col =>
          if col.type = ColType.system then col
          else { col with visible := true }))
    ∧ (applyFilteredOnlyVisibility false so sf ff prev
      = prev.map (fun col =>
          { col with visible :=
              if col.type = ColType.system then col.visible else false }))
    ∧ (jsStrFalsy sf = true →
        applyFilteredOnlyVisibility sa true sf ff prev
        = prev.map (fun col =>
            { col with visible :=
                if col.type = ColType.system then col.visible else false }))
    ∧ (jsStrFalsy sf = true → filteredFieldsOf sf = [])
    ∧ filteredFieldValuesEffect sa false ff results pc prevFFV = prevFFV
    ∧ filteredFieldValuesEffect sa so [] results pc prevFFV = prevFFV := by
  refine ⟨?_, ?_, ?_, ?_, ?_, ?_⟩
  · unfold applyFilteredOnlyVisibility
    rw [if_neg (by simp)]
    apply List.map_congr_left
    intro col _
    by_cases h : col.type = ColType.system
    · simp [h]
    · simp [h]
  · unfold applyFilteredOnlyVisibility
    rw [if_pos (by simp)]
  · intro hsf
    unfold applyFilteredOnlyVisibility
    rw [if_pos (by simp [hsf])]
  · intro hsf
    cases sf with
    | none => rfl
    | some s =>
      have hs : s = "" := by
        simpa [jsStrFalsy] using hsf
      subst hs
      rfl
  · unfold filteredFieldValuesEffect
    rw [if_pos (by simp)]
  · unfold filteredFieldValuesEffect
    rw [if_pos (by simp)]

theorem C3_amended_visibilityModes_witness :
    jsStrFalsy (some "") = true
    ∧ applyFilteredOnlyVisibility true true (some "") []
        [{ name := "a", visible := true, type := ColType.attr }]
      = [({ name := "a", visible := true, type := ColType.attr }
          : ColumnConfig)].map
          (fun col =>
            { col with visible :=
                if col.type = ColType.system then col.visible else false })
    ∧ filteredFieldsOf (some "") = []
    ∧ filteredFieldValuesEffect true false ["f"] ([] : List Row)
        (fun _ => Option.none) (fun _ => Option.none)
      = (fun _ => Option.none) := by
  have h := C3_amended_visibilityModes true true (some "") ["f"]
    [{ name := "a", visible := true, type := ColType.attr }]
    (fun _ => Option.none) ([] : List Row) (fun _ => Option.none)
  exact ⟨by decide, h.2.2.1 (by decide), h.2.2.2.1 (by decide),
    h.2.2.2.2.1⟩

/-- Claim C2: a fetch started under generation G that resolves after the
reset to generation G+1 has begun is discarded in full — the state is
exactly the reset state, and in particular the raw cache, parsed cache and
attribute columns are still empty. -/
theorem C2_staleFetchDiscarded (getVis : String → Bool → Bool)
    (parseJson : String → Option ParsedAttributes) (s : CompState)
    (elements : List String) (attrs : Option (List (Option String))) :
    completeFetchAtGen getVis parseJson s.generation elements attrs
        (keyNameChange getVis s)
      = keyNameChange getVis s
    ∧ (keyNameChange getVis s).attributeCache = (fun _ => Option.none)
    ∧ (keyNameChange getVis s).parsedAttributeCache = (fun _ => Option.none)
    ∧ (keyNameChange getVis s).availableColumns.filter
        (fun c => decide (c.type = ColType.attr)) = [] := by
  refine ⟨?_, rfl, rfl, rfl⟩
  unfold completeFetchAtGen completeFetch
  rw [if_pos]
  show (s.generation != (keyNameChange getVis s).generation) = true
  have : (keyNameChange getVis s).generation = s.generation + 1 := rfl
  rw [this, bne_iff_ne]
  omega

/-- Claim C6: a dataset-identity (`keyName`) change resets, before any new
fetch begins, the raw attribute cache, the parsed cache, the column list
(back to the two system columns), the override display values, the sort
state, the free-text filter, the selection set and selection mode — and
advances the dataset generation. -/
theorem C6_datasetIdentityReset (getVis : String → Bool → Bool)
    (s : CompState) :
    (keyNameChange getVis s).attributeCache = (fun _ => Option.none)
    ∧ (keyNameChange getVis s).parsedAttributeCache = (fun _ => Option.none)
    ∧ (keyNameChange getVis s).availableColumns
      = [{ name := "element", visible := getVis "element" true,
           type := ColType.system },
         { name := "score", visible := getVis "score" true,
           type := ColType.system }]
    ∧ (keyNameChange getVis s).filteredFieldValues = (fun _ => Option.none)
    ∧ (keyNameChange getVis s).sortColumn = SortColumn.none
    ∧ (keyNameChange getVis s).sortDirection = SortDirection.asc
    ∧ (keyNameChange getVis s).filterText = ""
    ∧ (keyNameChange getVis s).selectedElements = []
    ∧ (keyNameChange getVis s).selectMode = false
    ∧ (keyNameChange getVis s).generation = s.generation + 1 :=
  ⟨rfl, rfl, rfl, rfl, rfl, rfl, rfl, rfl, rfl, rfl⟩

/-- Claim C8: validation fails (with an error and no value, so no command is
built) iff `keyNames` is missing, not an array, empty, or contains a key
name failing `validateKeyName`; on success the built command has exactly one
`VINFO` sub-command per input key name, in input order. -/
theorem C8_vinfoMultiValidation (validateKeyName : String → Bool)
    (body : VinfoMultiRequestBody) :
    ((validateVinfoMultiRequest validateKeyName body).isValid = false
      ↔ body.keyNames = JsKeyNamesField.absent
        ∨ body.keyNames = JsKeyNamesField.notArray
        ∨ body.keyNames = JsKeyNamesField.array []
        ∨ ∃ l keyName, body.keyNames = JsKeyNamesField.array l ∧ keyName ∈ l
            ∧ validateKeyName keyName = false)
    ∧ ((validateVinfoMultiRequest validateKeyName body).error.isSome
        = !(validateVinfoMultiRequest validateKeyName body).isValid)
    ∧ ((validateVinfoMultiRequest validateKeyName body).isValid = false →
        (validateVinfoMultiRequest validateKeyName body).value = Option.none)
    ∧ ∀ req : VinfoMultiRequest,
        (validateVinfoMultiRequest validateKeyName body).value = some req →
        (∃ l, body.keyNames = JsKeyNamesField.array l ∧ req.keyNames = l)
        ∧ (buildVinfoMultiCommand req).length = req.keyNames.length
        ∧ ∀ i : Nat, (buildVinfoMultiCommand req)[i]?
            = (req.keyNames[i]?).map (fun keyName => ["VINFO", keyName]) := by
  obtain ⟨kn, rco⟩ := body
  cases kn with
  | absent =>
    refine ⟨by simp [validateVinfoMultiRequest], rfl, fun _ => rfl, ?_⟩
    intro req h
    exact absurd h (by simp [validateVinfoMultiRequest])
  | notArray =>
    refine ⟨by simp [validateVinfoMultiRequest], rfl, fun _ => rfl, ?_⟩
    intro req h
    exact absurd h (by simp [validateVinfoMultiRequest])
  | array l =>
    cases l with
    | nil =>
      refine ⟨by simp [validateVinfoMultiRequest], rfl, fun _ => rfl, ?_⟩
      intro req h
      exact absurd h (by simp [validateVinfoMultiRequest])
    | cons k ks =>
      have hlen : ¬ ((k :: ks).length = 0) := by simp
      cases hf : (k :: ks).find? (fun keyName => !(validateKeyName keyName)) with
      | some k0 =>
        have hval : validateVinfoMultiRequest validateKeyName
            ⟨JsKeyNamesField.array (k :: ks), rco⟩
            = { isValid := false
                error := some ("Invalid key name: " ++ k0)
                value := Option.none } := by
          simp only [validateVinfoMultiRequest]
          rw [if_neg hlen, hf]
        rw [hval]
        have hk0mem : k0 ∈ k :: ks := List.mem_of_find?_eq_some hf
        have hk0bad : validateKeyName k0 = false := by
          have := List.find?_some hf
          simpa using this
        refine ⟨?_, rfl, fun _ => rfl, ?_⟩
        · constructor
          · intro _
            exact Or.inr (Or.inr (Or.inr ⟨k :: ks, k0, rfl, hk0mem, hk0bad⟩))
          · intro _
            rfl
        · intro req h
          exact absurd h (by simp)
      | none =>
        have hval : validateVinfoMultiRequest validateKeyName
            ⟨JsKeyNamesField.array (k :: ks), rco⟩
            = { isValid := true
                error := Option.none
                value := some
                  { keyNames := k :: ks
                    returnCommandOnly := rco == some true } } := by
          simp only [validateVinfoMultiRequest]
          rw [if_neg hlen, hf]
        rw [hval]
        have hall : ∀ keyName ∈ k :: ks, validateKeyName keyName = true := by
          intro keyName hmem
          have := List.find?_eq_none.mp hf keyName hmem
          simpa using this
        refine ⟨?_, rfl, ?_, ?_⟩
        · constructor
          · intro hcontra
            exact absurd hcontra (by simp)
          · intro hrhs
            rcases hrhs with h | h | h | ⟨l', k', heq, hmem, hbad⟩
            · exact JsKeyNamesField.noConfusion h
            · exact JsKeyNamesField.noConfusion h
            · exact absurd h (by simp)
            · injection heq with h'
              subst h'
              rw [hall k' hmem] at hbad
              exact Bool.noConfusion hbad
        · intro hcontra
          exact absurd hcontra (by simp)
        · intro req h
          injection h with h'
          subst h'
          refine ⟨⟨k :: ks, rfl, rfl⟩, ?_, ?_⟩
          · simp [buildVinfoMultiCommand]
          · intro i
            exact List.getElem?_map _ _ _

theorem C8_vinfoMultiValidation_witness :
    (validateVinfoMultiRequest (fun k => k != "bad")
        { keyNames := JsKeyNamesField.array ["k1", "k2"]
          returnCommandOnly := some true }).value
      = some { keyNames := ["k1", "k2"], returnCommandOnly := true }
    ∧ (∃ l, JsKeyNamesField.array ["k1", "k2"] = JsKeyNamesField.array l
        ∧ ({ keyNames := ["k1", "k2"], returnCommandOnly := true }
            : VinfoMultiRequest).keyNames = l)
    ∧ (buildVinfoMultiCommand
        { keyNames := ["k1", "k2"], returnCommandOnly := true }).length
      = ({ keyNames := ["k1", "k2"], returnCommandOnly := true }
          : VinfoMultiRequest).keyNames.length
    ∧ (buildVinfoMultiCommand
        { keyNames := ["k1", "k2"], returnCommandOnly := true })[0]?
      = ((({ keyNames := ["k1", "k2"], returnCommandOnly := true }
            : VinfoMultiRequest).keyNames)[0]?).map
          (fun keyName => ["VINFO", keyName])
    ∧ (validateVinfoMultiRequest (fun k => k != "bad")
        { keyNames := JsKeyNamesField.array ["k1", "bad"]
          returnCommandOnly := Option.none }).isValid = false := by
  have h := C8_vinfoMultiValidation (fun k => k != "bad")
    { keyNames := JsKeyNamesField.array ["k1", "k2"]
      returnCommandOnly := some true }
  have h4 := h.2.2.2 { keyNames := ["k1", "k2"], returnCommandOnly := true }
    (by decide)
  have h2 := C8_vinfoMultiValidation (fun k => k != "bad")
    { keyNames := JsKeyNamesField.array ["k1", "bad"]
      returnCommandOnly := Option.none }
  exact ⟨by decide, h4.1, h4.2.1, h4.2.2 0,
    h2.1.mpr (Or.inr (Or.inr (Or.inr
      ⟨["k1", "bad"], "bad", rfl, by decide, by decide⟩)))⟩

end VectorSetsBrowser
